import Mathlib

/-!
Verification of the PolyMaster trading-assistant backend core.

We shallowly embed the decision core of the repository in Lean:
text is a `List Char`, Python floats are rationals (`ℚ`), timestamps are
integer seconds, fallible calls are `Except`/`Option`, and external
collaborators (HTTP feed, LLM forecaster, signing client) are explicit
oracle parameters.  Every definition is translated from the Python source
(`backend/agents/data/polymarket/client.py`,
`backend/services/ai_service.py`, `backend/services/trading_service.py`,
`backend/services/polymarket_service.py`); the `spec...` definitions are
the only ones written from the natural-language specification, for
refinement comparisons.
-/

namespace PolyMaster

/-- Lowercase an ASCII character; models Python `str.lower` on the
characters relevant to the keyword sets (all keywords are ASCII). -/
def lowerChar (c : Char) : Char :=
  if 65 ≤ c.toNat ∧ c.toNat ≤ 90 then Char.ofNat (c.toNat + 32) else c

/-- Lowercase a text, models `question.lower()`. -/
def lowerText (s : List Char) : List Char := s.map lowerChar

/-- Does `pat` occur at the head of `text`?  Auxiliary for substring
containment. -/
def matchesAt : List Char → List Char → Bool
  | [], _ => true
  | _ :: _, [] => false
  | a :: as, b :: bs => a == b && matchesAt as bs

/-- Substring containment, models Python `pat in text`. -/
def containsKw (pat : List Char) : List Char → Bool
  | [] => matchesAt pat []
  | b :: bs => matchesAt pat (b :: bs) || containsKw pat bs

/-- Does any keyword of the set occur in the text?  Models
`any(keyword in question for keyword in ...)`. -/
def anyKeyword (kws : List (List Char)) (text : List Char) : Bool :=
  kws.any (fun k => containsKw k text)

/-- The fixed category taxonomy of `Polymarket.detect_category`. -/
inductive Category where
  | politics | sports | crypto | tech | entertainment
  | economy | climate | health | other
  deriving DecidableEq, Repr, Inhabited

/-- Keyword set `politics_keywords` from `client.py`. -/
def politics_keywords : List (List Char) :=
  ["election", "president", "presidential", "vote", "voting", "congress",
   "senate", "senator", "minister", "government", "governor", "mayor",
   "politician", "political", "candidate", "fed", "federal", "rate",
   "interest", "chancellor", "prime minister", "biden", "trump", "harris",
   "desantis", "republican", "democrat", "gop", "party", "campaign",
   "debate", "poll", "electoral", "impeach", "cabinet", "white house",
   "policy", "law", "legislation", "supreme court", "justice", "scotus",
   "midterm", "2024", "2025", "inauguration"].map (fun s => s.toList)

/-- Keyword set `sports_keywords` from `client.py`. -/
def sports_keywords : List (List Char) :=
  ["nba", "nfl", "mlb", "nhl", "soccer", "football", "basketball",
   "baseball", "hockey", "league", "cup", "championship", "playoffs",
   "win", "wins", "relegated", "super bowl", "world cup", "olympics",
   "fifa", "uefa", "champions league", "epl", "premier league", "la liga",
   "bundesliga", "serie a", "mvp", "rookie", "draft", "trade", "player",
   "team", "coach", "manager", "season", "finals", "semifinal",
   "quarterback", "goal", "touchdown", "home run", "points", "score",
   "games", "match", "tournament", "tennis", "golf", "pga", "masters",
   "wimbledon", "open", "formula 1", "f1", "racing"].map (fun s => s.toList)

/-- Keyword set `crypto_keywords` from `client.py`. -/
def crypto_keywords : List (List Char) :=
  ["bitcoin", "btc", "ethereum", "eth", "crypto", "cryptocurrency",
   "token", "blockchain", "opensea", "nft", "defi", "solana", "sol",
   "cardano", "ada", "dogecoin", "doge", "binance", "coinbase",
   "exchange", "wallet", "mining", "hash", "altcoin", "satoshi", "web3",
   "dao", "smart contract", "yield", "staking", "liquidity", "usd",
   "usdc", "price", "$100", "$50", "$1000", "coin", "market cap",
   "volume", "trading"].map (fun s => s.toList)

/-- Keyword set `entertainment_keywords` from `client.py`. -/
def entertainment_keywords : List (List Char) :=
  ["movie", "film", "actor", "actress", "director", "award", "oscar",
   "academy", "golden globe", "emmy", "grammy", "song", "album", "artist",
   "singer", "show", "tv", "television", "streaming", "netflix", "disney",
   "marvel", "star wars", "hollywood", "box office", "celebrity", "fame",
   "concert", "tour", "music", "video", "youtube", "tiktok", "instagram",
   "social media", "influencer", "podcast", "series", "season",
   "episode"].map (fun s => s.toList)

/-- Keyword set `tech_keywords` from `client.py`. -/
def tech_keywords : List (List Char) :=
  ["ai", "artificial intelligence", "openai", "chatgpt", "gpt",
   "technology", "software", "app", "application", "launch", "google",
   "apple", "microsoft", "meta", "facebook", "amazon", "tesla",
   "elon musk", "twitter", "x.com", "iphone", "android", "ios", "startup",
   "ipo", "stock", "valuation", "revenue", "company", "ceo", "tech",
   "computer", "robot", "automation", "cloud", "data", "internet",
   "cyber", "security"].map (fun s => s.toList)

/-- Keyword set `economy_keywords` from `client.py`. -/
def economy_keywords : List (List Char) :=
  ["economy", "economic", "recession", "inflation", "gdp", "unemployment",
   "jobs", "market", "stock market", "dow", "nasdaq", "s&p", "sp500",
   "bear market", "bull market", "interest rate", "federal reserve",
   "bank", "banking", "finance", "financial", "dollar", "euro",
   "currency", "trade", "tariff", "debt", "deficit",
   "budget"].map (fun s => s.toList)

/-- Keyword set `climate_keywords` from `client.py`. -/
def climate_keywords : List (List Char) :=
  ["climate", "global warming", "temperature", "weather", "hurricane",
   "storm", "flood", "drought", "wildfire", "carbon", "emissions",
   "renewable", "solar", "wind", "electric", "ev", "environment", "green",
   "sustainability"].map (fun s => s.toList)

/-- Keyword set `health_keywords` from `client.py`. -/
def health_keywords : List (List Char) :=
  ["health", "medical", "disease", "virus", "vaccine", "covid",
   "pandemic", "hospital", "doctor", "medicine", "drug", "fda",
   "approval", "treatment", "cure", "clinical", "trial", "study",
   "research"].map (fun s => s.toList)

/-- `Polymarket.detect_category` (`client.py` 920-1005): lowercase the
question, then test the keyword sets in the branch order of the source
(politics, sports, crypto, tech, entertainment, economy, climate,
health), returning the first category whose keyword set matches, and
`other` if none matches. -/
def detect_category (question : List Char) : Category :=
  let q := lowerText question
  if anyKeyword politics_keywords q then .politics
  else if anyKeyword sports_keywords q then .sports
  else if anyKeyword crypto_keywords q then .crypto
  else if anyKeyword tech_keywords q then .tech
  else if anyKeyword entertainment_keywords q then .entertainment
  else if anyKeyword economy_keywords q then .economy
  else if anyKeyword climate_keywords q then .climate
  else if anyKeyword health_keywords q then .health
  else .other

/-- The category priority order stated by the specification. -/
def specCategoryOrder : List (Category × List (List Char)) :=
  [(.politics, politics_keywords), (.sports, sports_keywords),
   (.crypto, crypto_keywords), (.tech, tech_keywords),
   (.entertainment, entertainment_keywords), (.economy, economy_keywords),
   (.climate, climate_keywords), (.health, health_keywords)]

/-- Written from the specification's words: walk the fixed priority order
and return the first category with a matching keyword, defaulting to
`other`.  Used to check that `detect_category` refines this policy. -/
def specFirstMatch (q : List Char) : List (Category × List (List Char)) → Category
  | [] => .other
  | (c, kws) :: rest =>
      if anyKeyword kws q then c else specFirstMatch q rest

/-- Written from the specification's words: the categorizer as "lowercase,
then first match in priority order". -/
def specDetectCategory (question : List Char) : Category :=
  specFirstMatch (lowerText question) specCategoryOrder

/-- Canonical market record, from the fields `map_api_to_market`
(`client.py` 404-423) produces and the attribute accesses in
`filter_markets_for_trading` and `execute_market_order`.  The `end`
string is represented by its ISO-8601 parse outcome `endTs` (seconds
since epoch); `none` covers both a missing/empty end date and a string
`datetime.fromisoformat` rejects — the two cases take the same branch at
every use site (inclusion in `get_all_markets`, the +10 default in
scoring).  `tradeSide` models `market.trade.get('side')` when a `trade`
attribute is present. -/
structure SimpleMarket where
  id : Nat
  question : List Char
  description : List Char
  endTs : Option Int
  active : Bool
  funded : Bool
  rewardsMinSize : ℚ
  rewardsMaxSpread : ℚ
  spread : ℚ
  outcomes : List Char
  outcome_prices : List Char
  clob_token_ids : List Char
  tradeSide : Option (List Char) := none
  deriving Repr, DecidableEq

/-- Spread factor of the scoring pass (`client.py` 330-333):
`max(0, 30 - spread*100)` added only when `spread > 0`. -/
def spreadFactor (spread : ℚ) : ℚ :=
  if spread > 0 then max 0 (30 - spread * 100) else 0

/-- Python `(end_date - current_time).days`: floor division of the
elapsed seconds by 86400 (timedelta normalizes toward minus infinity). -/
def daysRemaining (now endTs : Int) : Int :=
  (endTs - now).fdiv 86400

/-- Time factor of the scoring pass (`client.py` 335-350): bucket by
`days_remaining` when the end date parses, 10 on a parse failure,
nothing when `days_remaining <= 0`. -/
def timeFactor (now : Int) (endTs : Option Int) : ℚ :=
  match endTs with
  | none => 10
  | some e =>
      let d := daysRemaining now e
      if d > 0 then
        if 1 ≤ d ∧ d ≤ 30 then 25
        else if 31 ≤ d ∧ d ≤ 90 then 20
        else if 91 ≤ d ∧ d ≤ 180 then 15
        else 5
      else 0

/-- Question-length factor (`client.py` 356-363). -/
def questionFactor (len : Nat) : ℚ :=
  if len > 100 then 15 else if len > 50 then 10 else 5

/-- Minimum-size factor (`client.py` 365-372): Python truthiness of the
float `rewardsMinSize` is `≠ 0`. -/
def minSizeFactor (r : ℚ) : ℚ :=
  if r ≠ 0 then (if r ≥ 100 then 10 else if r ≥ 50 then 7 else 3) else 0

/-- Score of one market in the scoring pass of
`filter_markets_for_trading` (`client.py` 322-374). -/
def marketScore (now : Int) (m : SimpleMarket) : ℚ :=
  spreadFactor m.spread + timeFactor now m.endTs
    + (if m.funded then 20 else 0)
    + questionFactor m.question.length
    + minSizeFactor m.rewardsMinSize

/-- The scoring pass: skip inactive markets, pair the rest with their
score, in input order (`client.py` 324-374). -/
def scoredMarkets (now : Int) (markets : List SimpleMarket) :
    List (SimpleMarket × ℚ) :=
  (markets.filter (fun m => m.active)).map (fun m => (m, marketScore now m))

/-- Stable descending insertion by score: the element is placed before
the first entry `a` with `score ≥ score a`, so an element that came
earlier in the input precedes the equal-scored elements that came after
it.  Together with `sortScoredDesc` this is the extensional behavior of
Python's stable `list.sort(key=lambda x: x[1], reverse=True)`
(`client.py` 377), pinned below by the sortedness, permutation and
stability theorems. -/
def insertScored (p : SimpleMarket × ℚ) :
    List (SimpleMarket × ℚ) → List (SimpleMarket × ℚ)
  | [] => [p]
  | a :: as => if p.2 ≥ a.2 then p :: a :: as else a :: insertScored p as

/-- Stable sort of the scored list, highest score first, ties in input
order: models `scored_markets.sort(key=lambda x: x[1], reverse=True)`. -/
def sortScoredDesc : List (SimpleMarket × ℚ) → List (SimpleMarket × ℚ)
  | [] => []
  | p :: ps => insertScored p (sortScoredDesc ps)

/-- Per-category cap of the selection walk (`client.py` 381). -/
def max_per_category : Nat := 8

/-- Total output cap of the selection walk (`client.py` 391). -/
def max_featured : Nat := 50

/-- The diversity selection walk (`client.py` 380-392): accept a market
only while its category count is below `max_per_category`, and stop as
soon as `max_featured` markets are accepted. -/
def selectDiverse (counts : Category → Nat) (acc : List SimpleMarket) :
    List (SimpleMarket × ℚ) → List SimpleMarket
  | [] => acc
  | (m, _) :: rest =>
      if counts (detect_category m.question) < max_per_category then
        if (acc ++ [m]).length ≥ max_featured then acc ++ [m]
        else
          selectDiverse
            (fun c2 => if c2 = detect_category m.question
              then counts (detect_category m.question) + 1
              else counts c2)
            (acc ++ [m]) rest
      else selectDiverse counts acc rest

/-- `Polymarket.filter_markets_for_trading` (`client.py` 315-394): score
the active markets, sort stably by descending score, then walk the sorted
list selecting a bounded, category-diverse subset. -/
def filter_markets_for_trading (now : Int)
    (markets : List SimpleMarket) : List SimpleMarket :=
  selectDiverse (fun _ => 0) [] (sortScoredDesc (scoredMarkets now markets))

/-- Written from the specification's words (§4.3 / claim C5): the score
as the sum of the five factors with the claim's case enumeration — spread
`max(0, 30 - spread*100)` (0 when `spread ≤ 0`); time 25 for 1-30 days,
20 for 31-90, 15 for 91-180, 5 for more than 180, 10 on parse failure, 0
once ended; +20 when funded; question length +15 over 100 chars, +10 over
50, else +5; and the `rewardsMinSize` ladder when present and nonzero.
At the code's integer-day granularity "already ended" is
`days_remaining ≤ 0`, which also covers an end date less than one full
day ahead — exactly the inputs the code's `days_remaining > 0` guard
leaves unscored. -/
def specScore (now : Int) (m : SimpleMarket) : ℚ :=
  (if m.spread > 0 then max 0 (30 - m.spread * 100) else 0)
    + (match m.endTs with
       | none => 10
       | some e =>
           if daysRemaining now e ≤ 0 then 0
           else if 1 ≤ daysRemaining now e ∧ daysRemaining now e ≤ 30 then 25
           else if 31 ≤ daysRemaining now e ∧ daysRemaining now e ≤ 90 then 20
           else if 91 ≤ daysRemaining now e ∧ daysRemaining now e ≤ 180 then 15
           else 5)
    + (if m.funded then 20 else 0)
    + (if m.question.length > 100 then 15
       else if m.question.length > 50 then 10 else 5)
    + (if m.rewardsMinSize ≠ 0 then
         (if m.rewardsMinSize ≥ 100 then 10
          else if m.rewardsMinSize ≥ 50 then 7 else 3)
       else 0)

/-- Confidence bucket of `AIService.calculate_market_edge`
(`ai_service.py` 802). -/
inductive Confidence where
  | HIGH | MEDIUM | LOW
  deriving DecidableEq, Repr

/-- The numeric fields of the dictionary `calculate_market_edge`
returns. -/
structure EdgeResult where
  absolute_edge : ℚ
  relative_edge : ℚ
  kelly_size : ℚ
  confidence : Confidence
  deriving DecidableEq, Repr

/-- Probability normalization in `calculate_market_edge`
(`ai_service.py` 751-754): values above 1.0 are divided by 100, then the
result is clamped to `[0.01, 0.99]`. -/
def normalize_probability (v : ℚ) : ℚ :=
  let v1 := if v > 1 then v / 100 else v
  max (1/100) (min (99/100) v1)

/-- Edge computation of `calculate_market_edge` (`ai_service.py`
786-802) on a normalized probability `p` and market price `m`:
absolute edge, relative edge guarded against a non-positive price,
the simplified Kelly size, and the confidence bucket. -/
def calculate_market_edge (p m : ℚ) : EdgeResult :=
  let absolute_edge := |p - m|
  { absolute_edge := absolute_edge
    relative_edge := if m > 0 then absolute_edge / m * 100 else 0
    kelly_size := absolute_edge * 2
    confidence :=
      if absolute_edge > 1/10 then .HIGH
      else if absolute_edge > 1/20 then .MEDIUM
      else .LOW }

/-- Python-level failures the catalog boundary can produce. -/
inductive PyError where
  | timeoutErr
  | indexErr
  | valueNotFound
  deriving DecidableEq, Repr

/-- Outcome of an `httpx.get` call: either the request raised (timeout,
connection failure) or a response with a status code and body arrived. -/
inductive HttpResult (α : Type) where
  | timeout
  | response (status : Nat) (body : α)

/-- Does the market survive the end-date freshness filter of
`get_all_markets` (`client.py` 296-309)?  A future end date passes, a
missing or unparseable one is included as a fallback. -/
def includeByEnd (now : Int) (m : SimpleMarket) : Bool :=
  match m.endTs with
  | some e => decide (e > now)
  | none => true

/-- `Polymarket.get_all_markets` (`client.py` 278-313).  `parse` is the
per-record `map_api_to_market` + `SimpleMarket(**…)` step, whose
exceptions the per-record `try` absorbs (`none`).  There is no `try`
around the `httpx.get` itself, so a timeout propagates; a non-success
status falls through to `return markets` with the list still empty. -/
def get_all_markets {α : Type} (parse : α → Option SimpleMarket)
    (now : Int) : HttpResult (List α) → Except PyError (List SimpleMarket)
  | .timeout => .error .timeoutErr
  | .response status body =>
      if status = 200 then
        .ok ((body.filterMap parse).filter (includeByEnd now))
      else .ok []

/-- Raw record of the events feed as `get_all_events` consumes it: the
parsed volume and the `SimpleEvent` value the loop body would build.
The event payload itself is irrelevant to the claims, so it stays
abstract. -/
structure RawEventRec (ε : Type) where
  volume : ℚ
  event : ε

/-- `Polymarket.get_all_events` (`client.py` 425-478): the whole body is
inside `try/except` returning `[]`, so a timeout degrades to an empty
list; a 200 response keeps the records with volume above 10000; any
other status returns `[]`. -/
def get_all_events {ε : Type} :
    HttpResult (List (RawEventRec ε)) → Except PyError (List ε)
  | .timeout => .ok []
  | .response status body =>
      if status = 200 then
        .ok ((body.filter (fun r => r.volume > 10000)).map (fun r => r.event))
      else .ok []

/-- `Polymarket.get_market` (`client.py` 396-402): no `try` at all — a
timeout propagates, `data[0]` on an empty match list raises `IndexError`,
and a non-success status falls off the end of the function returning
`None`.  The `map_api_to_market` conversion of the first record is the
`parse` oracle, modelled total; a conversion exception would propagate
exactly like the `IndexError` and does not affect the claims. -/
def get_market {α : Type} (parse : α → SimpleMarket) :
    HttpResult (List α) → Except PyError (Option SimpleMarket)
  | .timeout => .error .timeoutErr
  | .response status body =>
      if status = 200 then
        match body with
        | [] => .error .indexErr
        | r :: _ => .ok (some (parse r))
      else .ok none

/-- `PolymarketService.get_market_by_id` (`polymarket_service.py`
98-131) given the cache-lookup outcome and the client call's outcome: a
valid cache entry is returned as-is; a client exception is re-raised by
the `except … raise` handler; a `None` market raises
`ValueError(f"Market … not found")`.  The dictionary conversion and the
`_set_cache` store on the success path do not change the surfaced value
and are elided. -/
def get_market_by_id (cacheHit : Option SimpleMarket)
    (clientRes : Except PyError (Option SimpleMarket)) :
    Except PyError SimpleMarket :=
  match cacheHit with
  | some m => .ok m
  | none =>
      match clientRes with
      | .error e => .error e
      | .ok (some m) => .ok m
      | .ok none => .error .valueNotFound

/-- The TTL constant `self.cache_timeout = 60` of `PolymarketService`. -/
def cache_timeout : Nat := 60

/-- Python's `timedelta.seconds` attribute on a non-negative elapsed
time measured in whole seconds: the seconds component after the days are
split off, i.e. the elapsed time modulo 86400 — not the total elapsed
seconds. -/
def tdSecondsAttr (elapsed : Nat) : Nat := elapsed % 86400

/-- One entry of `PolymarketService.cache`: payload plus the timestamp
`_set_cache` stored. -/
structure CacheEntry (α : Type) where
  data : α
  timestamp : Nat

/-- The keyed cache dictionary of `PolymarketService`. -/
def Cache (α : Type) : Type := List (List Char × CacheEntry α)

/-- Dictionary lookup in the cache. -/
def cacheFind {α : Type} (c : Cache α) (k : List Char) :
    Option (CacheEntry α) :=
  match c with
  | [] => none
  | (k2, e) :: rest => if k2 = k then some e else cacheFind rest k

/-- `PolymarketService._is_cache_valid` (`polymarket_service.py`
282-286): the entry must exist and
`(datetime.now() - entry.timestamp).seconds < cache_timeout` — the
`.seconds` attribute of the timedelta, not its total length. -/
def is_cache_valid {α : Type} (c : Cache α) (k : List Char) (now : Nat) :
    Bool :=
  match cacheFind c k with
  | none => false
  | some e => tdSecondsAttr (now - e.timestamp) < cache_timeout

/-- `PolymarketService._set_cache` (`polymarket_service.py` 288-293):
store the payload under the key with a fresh timestamp. -/
def set_cache {α : Type} (c : Cache α) (k : List Char) (data : α)
    (now : Nat) : Cache α :=
  (k, ⟨data, now⟩) :: c

/-- The caching skeleton shared by the `PolymarketService` listing
methods (`polymarket_service.py` 20-56): return the cached payload when
the entry is valid, otherwise fetch, store with a fresh timestamp and
return the fetched data. -/
def cached_fetch {α : Type} (c : Cache α) (k : List Char) (now : Nat)
    (fetch : α) : α × Cache α :=
  if is_cache_valid c k now then
    (match cacheFind c k with
     | some e => (e.data, c)
     | none => (fetch, set_cache c k fetch now))
  else (fetch, set_cache c k fetch now)

/-- Side-effects of `Polymarket.execute_market_order` on the venue
client, in program order: `created` is a successful
`client.create_order` (which builds and signs the order), `posted` a
successful `client.post_order`. -/
inductive OrderEffect where
  | created | posted
  deriving DecidableEq, Repr

/-- What `execute_market_order` hands back on success: either the real
`post_order` response or, when the client's own `dry_run` flag is set,
the `{"status": "simulated", "dry_run": True}` dictionary. -/
inductive OrderResp where
  | simulated
  | venue (r : Nat)
  deriving DecidableEq, Repr

/-- Oracle view of the venue/chain collaborators of the `Polymarket`
client: `parseTokenIds` models `ast.literal_eval` of the token-id string
(`none` = the call raised), `balanceOf` the ERC-1155 `balanceOf` chain
call, `getPrice`/`getOrderBook`/`createOrder`/`postOrder` the CLOB
client calls, each `Except` so a raised exception is representable.
`dryRunFlag` is the client's own `self.dry_run`, read from the `DRY_RUN`
environment variable at construction (`client.py` 48). -/
structure ClientEnv where
  parseTokenIds : List Char → Option (List Nat)
  balanceOf : Nat → Except Unit ℚ
  getPrice : Nat → Except Unit ℚ
  getOrderBook : Nat → Except Unit Unit
  createOrder : Nat → ℚ → Except Unit Nat
  postOrder : Nat → Except Unit Nat
  dryRunFlag : Bool

/-- `Polymarket.get_token_balance` (`client.py` 589-616): the chain call
wrapped in `try/except` returning `0.0` on any failure. -/
def get_token_balance (env : ClientEnv) (tok : Nat) : ℚ :=
  match env.balanceOf tok with
  | .error _ => 0
  | .ok b => b

/-- Does the decision say SELL?  Models
`hasattr(market, 'trade') and market.trade.get('side') == "SELL"`
(`client.py` 625). -/
def sideIsSell (m : SimpleMarket) : Bool :=
  match m.tradeSide with
  | some s => s = "SELL".toList
  | none => false

/-- The outcome token `execute_market_order` would buy: index 0 (NO) on
a SELL decision, index 1 (YES) otherwise, out of the parsed token-id
list (`client.py` 621-630).  `none` when `ast.literal_eval` raises or
the index is out of range. -/
def chosen_token (env : ClientEnv) (m : SimpleMarket) : Option Nat :=
  match env.parseTokenIds m.clob_token_ids with
  | none => none
  | some ids => ids.get? (if sideIsSell m then 0 else 1)

/-- `Polymarket.execute_market_order` (`client.py` 618-700), returning
the result together with the venue effects that happened.  The whole
body is one `try/except` returning `None`, so any collaborator exception
ends the call with the effects accumulated so far.  Note the order of
the source: the balance guard runs before any order is created, and the
`self.dry_run` check runs only after `post_order` has already been
issued. -/
def execute_market_order (env : ClientEnv) (m : SimpleMarket)
    (_amount : ℚ) : Option OrderResp × List OrderEffect :=
  match env.parseTokenIds m.clob_token_ids with
  | none => (none, [])
  | some ids =>
      match ids.get? (if sideIsSell m then 0 else 1) with
      | none => (none, [])
      | some tok =>
          if get_token_balance env tok > 0 then (none, [])
          else
            match env.getPrice tok with
            | .error _ => (none, [])
            | .ok price =>
                match env.getOrderBook tok with
                | .error _ => (none, [])
                | .ok _ =>
                    match env.createOrder tok price with
                    | .error _ => (none, [])
                    | .ok signed =>
                        match env.postOrder signed with
                        | .error _ => (none, [.created])
                        | .ok r =>
                            if env.dryRunFlag then
                              (some .simulated, [.created, .posted])
                            else
                              (some (.venue r), [.created, .posted])

/-- Python `str.split(',')` on character lists: splitting the empty
string yields `[[]]`, matching `''.split(',') == ['']`. -/
def splitOnComma : List Char → List (List Char)
  | [] => [[]]
  | c :: cs =>
      let r := splitOnComma cs
      if c = ',' then [] :: r
      else
        match r with
        | [] => [[c]]
        | g :: gs => (c :: g) :: gs

/-- One event record as the trading cycle consumes it: the raw
comma-joined market-id string of `event.dict().get('markets', '')`. -/
structure EventRec where
  markets : List Char

/-- The fields of `trader.gamma.get_market(market_id)` the cycle reads:
`volume` and the `featured` flag (`trading_service.py` 52-54). -/
structure GammaData where
  volume : ℚ
  featured : Bool

/-- One `high_quality_events` entry (`trading_service.py` 57-63): the
event together with the qualifying market data. -/
structure HQEvent where
  event : EventRec
  market_data : GammaData

/-- The dictionary `source_best_trade` returns, reduced to the fields the
cycle reads (`trading_service.py` 121-126). -/
structure TradeRec where
  price : ℚ
  edge : ℚ
  position : List Char
  confidence : ℚ

/-- Normal outcomes of one `run_autonomous_trading` cycle: the three
return dictionaries of `trading_service.py` (dry-run trade decision at
129-143, executed trade at 154-167, "No high quality events found" at
72-77, "No eligible trades found" at 173-178). -/
inductive RunOutcome where
  | tradeDecision (question position : List Char) (price edge : ℚ)
  | tradeExecuted (question : List Char) (resp : Option OrderResp)
  | noHighQualityEvents
  | noEligibleTrades (marketsAnalyzed : Nat)

/-- Oracle view of the collaborators `run_autonomous_trading` drives.
Modelled from the spec: `Trader.pre_trade_logic` and the agent methods
`filter_events_with_rag`, `map_filtered_events_to_markets`,
`filter_markets` and `source_best_trade` are not under `src/` (the
`agents.trading.trader` and `agents.ai.executor` modules are absent);
per the specification they are the ForecastProvider/pipeline
collaborators, which produce data and may raise, but submit no orders —
so each is an `Except`-valued oracle, and every venue write is confined
to `client` (the OrderGateway boundary). -/
structure RunEnv where
  preTrade : Except Unit Unit
  events : Except Unit (List EventRec)
  marketData : List Char → Except Unit GammaData
  filterRag : List (HQEvent × ℚ) → Except Unit (List (HQEvent × ℚ))
  mapToMarkets : List (HQEvent × ℚ) → Except Unit (List (SimpleMarket × ℚ))
  filterMkts : List (SimpleMarket × ℚ) → Except Unit (List (SimpleMarket × ℚ))
  bestTrade : SimpleMarket × ℚ → Except Unit (Option TradeRec)
  client : ClientEnv

/-- Scan of one event's market ids (`trading_service.py` 46-64): skip
empty ids, fetch the market data, and qualify the event on the first
market with `volume > 10000 or featured`.  A raised `get_market` aborts
the event (the per-event `except … continue` at 66-68), yielding
`none`. -/
def findQualifyingAux (gm : List Char → Except Unit GammaData)
    (ev : EventRec) : List (List Char) → Option HQEvent
  | [] => none
  | id :: rest =>
      if id = [] then findQualifyingAux gm ev rest
      else
        match gm id with
        | .error _ => none
        | .ok md =>
            if md.volume > 10000 || md.featured then some ⟨ev, md⟩
            else findQualifyingAux gm ev rest

/-- Per-event processing of the high-quality filter
(`trading_service.py` 42-68). -/
def findQualifying (gm : List Char → Except Unit GammaData)
    (ev : EventRec) : Option HQEvent :=
  findQualifyingAux gm ev (splitOnComma ev.markets)

/-- The decision loop over the filtered markets (`trading_service.py`
107-171): skip markets with an empty token-id string, skip candidates
whose analysis raises (`except … continue` at 169-171) or returns no
dictionary, and return on the first accepted candidate — a dry-run
report, or a live `execute_market_order` call whose venue effects are
surfaced.  `none` means the loop ran off the end. -/
def decideLoop (env : RunEnv) (dry_run : Bool) :
    List (SimpleMarket × ℚ) → Option (RunOutcome × List OrderEffect)
  | [] => none
  | mt :: rest =>
      if mt.1.clob_token_ids.isEmpty then decideLoop env dry_run rest
      else
        match env.bestTrade mt with
        | .error _ => decideLoop env dry_run rest
        | .ok none => decideLoop env dry_run rest
        | .ok (some t) =>
            if dry_run then
              some (.tradeDecision mt.1.question t.position t.price t.edge, [])
            else
              let r := execute_market_order env.client mt.1 1
              some (.tradeExecuted mt.1.question r.1, r.2)

/-- The `high_quality_events` list of the cycle (`trading_service.py`
42-70): the qualifying events, each paired with the constant weight
`1.0`. -/
def hqEvents (env : RunEnv) (evs : List EventRec) : List (HQEvent × ℚ) :=
  (evs.filterMap (findQualifying env.marketData)).map (fun h => (h, (1 : ℚ)))

/-- `TradingService.run_autonomous_trading` (`trading_service.py`
22-185): the one-cycle orchestrator.  Cycle-level failures (the pre-trade
step, the event fetch, or a whole pipeline stage raising) propagate via
the outer `except … raise`; per-event and per-candidate failures are
absorbed by the inner handlers.  The second component collects every
venue effect of the cycle. -/
def run_autonomous_trading (env : RunEnv) (dry_run : Bool) :
    Except Unit (RunOutcome × List OrderEffect) :=
  match env.preTrade with
  | .error e => .error e
  | .ok _ =>
      match env.events with
      | .error e => .error e
      | .ok evs =>
          if (hqEvents env evs).isEmpty then .ok (.noHighQualityEvents, [])
          else
            match env.filterRag (hqEvents env evs) with
            | .error e => .error e
            | .ok fe =>
                match env.mapToMarkets fe with
                | .error e => .error e
                | .ok mkts =>
                    match env.filterMkts mkts with
                    | .error e => .error e
                    | .ok fm =>
                        match decideLoop env dry_run fm with
                        | none => .ok (.noEligibleTrades fm.length, [])
                        | some r => .ok r

/-- Number of selected markets that fall in category `c`. -/
def countCat (l : List SimpleMarket) (c : Category) : Nat :=
  l.countP (fun m => decide (detect_category m.question = c))

/-- The venue effects of one cycle outcome (an errored cycle performed
whatever effects are recorded before the error; in this model
cycle-level errors happen only before any venue call, so they carry no
effects). -/
def cycleEffects (r : Except Unit (RunOutcome × List OrderEffect)) :
    List OrderEffect :=
  match r with
  | .error _ => []
  | .ok (_, effs) => effs

/-- Concrete market used to evaluate the client-level theorems. -/
def sampleMarket : SimpleMarket :=
  { id := 1
    question := "Will it rain tomorrow in the city of Boston?".toList
    description := []
    endTs := none
    active := true
    funded := true
    rewardsMinSize := 0
    rewardsMaxSpread := 0
    spread := 0
    outcomes := []
    outcome_prices := []
    clob_token_ids := "[11, 22]".toList
    tradeSide := none }

/-- Concrete inactive market used to evaluate the scorer theorems. -/
def sampleInactiveMarket : SimpleMarket :=
  { sampleMarket with active := false }

/-- Concrete client environment in which the wallet already holds five
YES tokens of `sampleMarket`. -/
def sampleClientEnv : ClientEnv :=
  { parseTokenIds := fun _ => some [11, 22]
    balanceOf := fun _ => .ok 5
    getPrice := fun _ => .ok (1/2)
    getOrderBook := fun _ => .ok ()
    createOrder := fun _ _ => .ok 0
    postOrder := fun _ => .ok 0
    dryRunFlag := false }

/-- Concrete orchestrator environment with one qualifying event and a
candidate market whose analysis call raises. -/
def sampleRunEnv : RunEnv :=
  { preTrade := .ok ()
    events := .ok [⟨"42".toList⟩]
    marketData := fun _ => .ok ⟨20000, false⟩
    filterRag := fun l => .ok l
    mapToMarkets := fun _ => .ok [(sampleMarket, 1)]
    filterMkts := fun l => .ok l
    bestTrade := fun _ => .error ()
    client := sampleClientEnv }

theorem lowerChar_idem (c : Char) : lowerChar (lowerChar c) = lowerChar c := by
  unfold lowerChar
  split
  · next h =>
    have hvalid : (c.toNat + 32).isValidChar := Or.inl (by omega)
    have htn : (Char.ofNat (c.toNat + 32)).toNat = c.toNat + 32 := by
      rw [Char.ofNat, dif_pos hvalid]
      rfl
    rw [htn]
    rw [if_neg (by omega)]
  · rfl

theorem lowerText_idem (s : List Char) : lowerText (lowerText s) = lowerText s := by
  induction s with
  | nil => rfl
  | cons c cs ih =>
      simp only [lowerText, List.map_cons] at ih ⊢
      rw [lowerChar_idem, ih]

theorem specFirstMatch_none (q : List Char) :
    ∀ l, (∀ pr ∈ l, anyKeyword pr.2 q = false) → specFirstMatch q l = .other := by
  intro l h
  induction l with
  | nil => rfl
  | cons a rest ih =>
      obtain ⟨c, kws⟩ := a
      have ha : anyKeyword kws q = false := h (c, kws) (by simp)
      simp only [specFirstMatch, ha, Bool.false_eq_true, if_false]
      exact ih (fun pr hpr => h pr (List.mem_cons_of_mem _ hpr))

/-- C2: for every forecast probability `p` and market price `m`, the edge
computation returns `absolute_edge = |p - m|`; `relative_edge =
absolute_edge / m * 100` when `m > 0` and `0` when `m ≤ 0`; `kelly_size =
absolute_edge * 2`; `confidence` is HIGH above edge 0.10, MEDIUM above
0.05 (and up to 0.10), else LOW.  In particular
`compute_edge(0.7, 0.5) = (0.2, 40.0, 0.4, HIGH)`,
`compute_edge(0.52, 0.5)` has absolute edge 0.02 with confidence LOW, and
a zero price always yields relative edge 0. -/
theorem calculate_market_edge_spec_thm (p m : ℚ) :
    (calculate_market_edge p m).absolute_edge = |p - m| ∧
    (m > 0 → (calculate_market_edge p m).relative_edge = |p - m| / m * 100) ∧
    (m ≤ 0 → (calculate_market_edge p m).relative_edge = 0) ∧
    (calculate_market_edge p m).kelly_size = |p - m| * 2 ∧
    (|p - m| > 1/10 → (calculate_market_edge p m).confidence = .HIGH) ∧
    (1/20 < |p - m| ∧ |p - m| ≤ 1/10 →
      (calculate_market_edge p m).confidence = .MEDIUM) ∧
    (|p - m| ≤ 1/20 → (calculate_market_edge p m).confidence = .LOW) ∧
    calculate_market_edge 0.7 0.5 = ⟨0.2, 40, 0.4, .HIGH⟩ ∧
    (calculate_market_edge 0.52 0.5).absolute_edge = 0.02 ∧
    (calculate_market_edge 0.52 0.5).confidence = .LOW ∧
    (calculate_market_edge p 0).relative_edge = 0 := by
  have habs1 : |(0.7 : ℚ) - 0.5| = 0.2 := by norm_num
  have habs2 : |(0.52 : ℚ) - 0.5| = 0.02 := by norm_num
  have hrel : ∀ a b : ℚ, (calculate_market_edge a b).relative_edge
      = if b > 0 then |a - b| / b * 100 else 0 := fun _ _ => rfl
  have hconf : ∀ a b : ℚ, (calculate_market_edge a b).confidence
      = (if |a - b| > 1/10 then Confidence.HIGH
         else if |a - b| > 1/20 then Confidence.MEDIUM
         else Confidence.LOW) := fun _ _ => rfl
  refine ⟨rfl, ?_, ?_, rfl, ?_, ?_, ?_, ?_, habs2, ?_, ?_⟩
  · intro h
    rw [hrel, if_pos h]
  · intro h
    rw [hrel, if_neg (by linarith : ¬ m > 0)]
  · intro h
    rw [hconf, if_pos h]
  · rintro ⟨h1, h2⟩
    rw [hconf, if_neg (by linarith : ¬ |p - m| > 1/10), if_pos h1]
  · intro h
    rw [hconf, if_neg (by linarith : ¬ |p - m| > 1/10),
      if_neg (by linarith : ¬ |p - m| > 1/20)]
  · have hform : calculate_market_edge 0.7 0.5
        = ⟨|(0.7:ℚ) - 0.5|, |(0.7:ℚ) - 0.5| / 0.5 * 100,
           |(0.7:ℚ) - 0.5| * 2,
           if |(0.7:ℚ) - 0.5| > 1/10 then .HIGH
           else if |(0.7:ℚ) - 0.5| > 1/20 then .MEDIUM else .LOW⟩ := by
      rw [calculate_market_edge]
      rw [if_pos (by norm_num : (0.5:ℚ) > 0)]
    rw [hform, habs1]
    norm_num
  · rw [hconf, habs2, if_neg (by norm_num), if_neg (by norm_num)]
  · rw [hrel, if_neg (by norm_num : ¬ (0:ℚ) > 0)]

/-- Witness for C2: the theorem applied at the spec's own example inputs,
including a pair landing in the MEDIUM band. -/
theorem calculate_market_edge_spec_witness :
    (calculate_market_edge 0.7 0.5).relative_edge = 40 ∧
    (calculate_market_edge 0.9 0.8).confidence = .MEDIUM := by
  have habs : |(0.7 : ℚ) - 0.5| = 0.2 := by norm_num
  have habs2 : |(0.9 : ℚ) - 0.8| = 0.1 := by norm_num
  constructor
  · have h := (calculate_market_edge_spec_thm 0.7 0.5).2.1 (by norm_num)
    rw [h, habs]
    norm_num
  · refine (calculate_market_edge_spec_thm 0.9 0.8).2.2.2.2.2.1 ?_
    rw [habs2]
    constructor <;> norm_num

/-- C3 counterexample: the code divides an input of 1.5 by 100 before
clamping, yielding 0.015, not the claimed clamp to 0.99. -/
theorem normalize_probability_cex :
    normalize_probability (3/2) = 3/200 ∧
    normalize_probability (3/2) ≠ 99/100 := by
  have h : normalize_probability (3/2) = 3/200 := by
    simp only [normalize_probability]
    norm_num
  exact ⟨h, by rw [h]; norm_num⟩

/-- C3 (amended): a forecast probability `v > 1.0` is divided by 100 and
the result clamped to `[0.01, 0.99]`; an input of 65 is normalized to
0.65, and an input of 1.5 becomes 0.015 (the divide-by-100 runs first, so
the clamp leaves it unchanged). -/
theorem normalize_probability_amended :
    (∀ v : ℚ, v > 1 →
      normalize_probability v = max (1/100) (min (99/100) (v/100))) ∧
    normalize_probability 65 = 13/20 ∧
    normalize_probability (3/2) = 3/200 := by
  refine ⟨?_, ?_, ?_⟩
  · intro v hv
    simp only [normalize_probability, if_pos hv]
  · simp only [normalize_probability]
    norm_num
  · simp only [normalize_probability]
    norm_num

/-- Witness for C3 (amended): the theorem applied at `v = 65`. -/
theorem normalize_probability_amended_witness :
    normalize_probability 65 = max (1/100) (min (99/100) (65/100)) :=
  normalize_probability_amended.1 65 (by norm_num)

/-- C4: `detect_category` is a pure, deterministic, case-insensitive
substring matcher that walks the fixed priority order politics, sports,
crypto, tech, entertainment, economy, climate, health and returns the
first matching category (it coincides with the spec-side first-match
walk); any title with a politics keyword — in particular one that also
matches another category — returns politics; a title matching no keyword
set returns `other`; lowercasing the title does not change the result. -/
theorem detect_category_priority_thm (title : List Char) :
    detect_category title = specDetectCategory title ∧
    (anyKeyword politics_keywords (lowerText title) = true →
      detect_category title = .politics) ∧
    ((∀ pr ∈ specCategoryOrder, anyKeyword pr.2 (lowerText title) = false) →
      detect_category title = .other) ∧
    detect_category (lowerText title) = detect_category title := by
  refine ⟨rfl, ?_, ?_, ?_⟩
  · intro h
    simp only [detect_category, h, if_true]
  · intro h
    show specDetectCategory title = .other
    exact specFirstMatch_none (lowerText title) specCategoryOrder h
  · show specDetectCategory (lowerText title) = specDetectCategory title
    simp only [specDetectCategory, lowerText_idem]

/-- Witness for C4: the spec's own example (a title containing both
"election" and "bitcoin" is politics) and a keyword-free title
(`other`), via the theorem. -/
theorem detect_category_priority_witness :
    detect_category ("Will the election affect bitcoin?".toList)
      = .politics ∧
    detect_category ("zzz qqq".toList) = .other := by
  constructor
  · exact (detect_category_priority_thm _).2.1 (by decide)
  · exact (detect_category_priority_thm _).2.2.1 (by decide)

/-- C9 (code bug): `_is_cache_valid` compares the timedelta's `.seconds`
attribute — the elapsed time modulo one day — against the 60-second TTL,
so an entry stored 86410 seconds (one day and ten seconds) ago is
reported valid and `cached_fetch` serves the stale payload, although the
elapsed time is far beyond the TTL required by the claim. -/
theorem cache_validity_code_bug :
    is_cache_valid [("all_markets_1000".toList,
      (⟨0, 0⟩ : CacheEntry Nat))] ("all_markets_1000".toList) 86410 = true ∧
    ¬ (86410 - 0 < cache_timeout) ∧
    (cached_fetch [("all_markets_1000".toList, (⟨0, 0⟩ : CacheEntry Nat))]
      ("all_markets_1000".toList) 86410 7).1 = 0 := by
  refine ⟨by decide, by decide, by decide⟩

/-- C7 counterexample: `get_all_markets` has no exception handler around
its `httpx.get`, so an upstream timeout propagates as an error instead of
degrading to the empty collection the claim promises for listing
operations. -/
theorem get_all_markets_timeout_cex :
    get_all_markets (fun _ : Unit => none) 0 .timeout
      = .error .timeoutErr ∧
    get_all_markets (fun _ : Unit => none) 0 .timeout
      ≠ .ok [] := by
  refine ⟨rfl, ?_⟩
  intro h
  exact Except.noConfusion h

/-- C7 (amended): `get_all_markets` returns an empty collection on a
non-success status but propagates a timeout; `get_all_events` never
propagates, returning empty on timeout and on non-success status; and
the single-market lookup fails loud — `get_market_by_id` yields the
lookup (`IndexError`) failure when the upstream returns an empty match
list, the NotFound `ValueError` when the client hands back nothing, and
returns a market only when the cache or the upstream actually produced
one. -/
theorem catalog_error_handling_amended :
    (∀ (status : Nat) (body : List Unit) (parse : Unit → Option SimpleMarket)
        (now : Int), status ≠ 200 →
        get_all_markets parse now (.response status body) = .ok []) ∧
    (∀ r : HttpResult (List (RawEventRec Nat)), ∃ l, get_all_events r = .ok l) ∧
    (∀ (status : Nat) (body : List (RawEventRec Nat)), status ≠ 200 →
        get_all_events (.response status body) = .ok []) ∧
    get_all_events (.timeout : HttpResult (List (RawEventRec Nat))) = .ok [] ∧
    (∀ parse : Unit → SimpleMarket,
        get_market_by_id none (get_market parse (.response 200 []))
          = .error .indexErr) ∧
    (∀ (status : Nat) (body : List Unit) (parse : Unit → SimpleMarket),
        status ≠ 200 →
        get_market_by_id none (get_market parse (.response status body))
          = .error .valueNotFound) ∧
    (∀ (cacheHit : Option SimpleMarket)
        (res : Except PyError (Option SimpleMarket)) (m : SimpleMarket),
        get_market_by_id cacheHit res = .ok m →
        cacheHit = some m ∨ res = .ok (some m)) := by
  refine ⟨?_, ?_, ?_, rfl, ?_, ?_, ?_⟩
  · intro status body parse now h
    simp only [get_all_markets, if_neg h]
  · intro r
    match r with
    | .timeout => exact ⟨[], rfl⟩
    | .response status body =>
        by_cases h : status = 200
        · subst h
          exact ⟨_, rfl⟩
        · exact ⟨[], by simp only [get_all_events, if_neg h]⟩
  · intro status body h
    simp only [get_all_events, if_neg h]
  · intro parse
    rfl
  · intro status body parse h
    simp only [get_market, if_neg h, get_market_by_id]
  · intro cacheHit res m h
    match cacheHit with
    | some m2 =>
        left
        simp only [get_market_by_id] at h
        cases h
        rfl
    | none =>
        right
        simp only [get_market_by_id] at h
        match res with
        | .error e => exact absurd h (by simp)
        | .ok none => exact absurd h (by simp)
        | .ok (some m2) =>
            cases h
            rfl

/-- Witness for C7 (amended): the theorem applied at status 503, at the
empty 200 match list, and at a concrete `ok`-result lookup. -/
theorem catalog_error_handling_amended_witness :
    get_all_markets (fun _ : Unit => none) 0 (.response 503 []) = .ok [] ∧
    get_market_by_id none
      (get_market (fun _ : Unit => sampleMarket) (.response 200 []))
      = .error .indexErr ∧
    get_market_by_id none
      (get_market (fun _ : Unit => sampleMarket) (.response 503 []))
      = .error .valueNotFound ∧
    (some sampleMarket = some sampleMarket ∨
      (.ok (some sampleMarket) : Except PyError (Option SimpleMarket))
        = .ok (some sampleMarket)) :=
  ⟨catalog_error_handling_amended.1 503 [] (fun _ => none) 0 (by decide),
   catalog_error_handling_amended.2.2.2.2.1 (fun _ => sampleMarket),
   catalog_error_handling_amended.2.2.2.2.2.1 503 [] (fun _ => sampleMarket)
     (by decide),
   catalog_error_handling_amended.2.2.2.2.2.2 (some sampleMarket)
     (.ok (some sampleMarket)) sampleMarket rfl⟩

/-- C10: when the wallet already holds a strictly positive balance of the
outcome token the order would buy, `execute_market_order` returns `None`
having performed no venue effect at all — no order is created, signed or
posted. -/
theorem execute_market_order_no_reentry (env : ClientEnv)
    (m : SimpleMarket) (amount : ℚ) (tok : Nat)
    (htok : chosen_token env m = some tok)
    (hbal : get_token_balance env tok > 0) :
    execute_market_order env m amount = (none, []) := by
  have h1 : ∃ ids, env.parseTokenIds m.clob_token_ids = some ids ∧
      ids.get? (if sideIsSell m then 0 else 1) = some tok := by
    unfold chosen_token at htok
    rcases hp : env.parseTokenIds m.clob_token_ids with _ | ids
    · rw [hp] at htok
      exact absurd htok (by simp)
    · rw [hp] at htok
      exact ⟨ids, rfl, htok⟩
  obtain ⟨ids, hp, hg⟩ := h1
  unfold execute_market_order
  simp only [hp, hg]
  rw [if_pos hbal]

/-- Witness for C10: in `sampleClientEnv` the wallet holds five YES
tokens, so the live order path is never entered. -/
theorem execute_market_order_no_reentry_witness :
    execute_market_order sampleClientEnv sampleMarket 1 = (none, []) :=
  execute_market_order_no_reentry sampleClientEnv sampleMarket 1 22
    (by decide) (by norm_num [get_token_balance, sampleClientEnv])

theorem decideLoop_dry_no_effects (env : RunEnv) :
    ∀ (fm : List (SimpleMarket × ℚ)) (out : RunOutcome)
      (effs : List OrderEffect),
      decideLoop env true fm = some (out, effs) → effs = [] := by
  intro fm
  induction fm with
  | nil =>
      intro out effs h
      exact Option.noConfusion h
  | cons mt rest ih =>
      intro out effs h
      unfold decideLoop at h
      by_cases he : mt.1.clob_token_ids.isEmpty
      · rw [if_pos he] at h
        exact ih out effs h
      · rw [if_neg he] at h
        match hb : env.bestTrade mt with
        | .error e => rw [hb] at h; exact ih out effs h
        | .ok none => rw [hb] at h; exact ih out effs h
        | .ok (some t) =>
            rw [hb] at h
            have h2 : (RunOutcome.tradeDecision mt.1.question t.position
                t.price t.edge, ([] : List OrderEffect)) = (out, effs) :=
              Option.some.inj h
            exact (congrArg Prod.snd h2).symm

/-- C6: a dry-run cycle performs no venue effect whatsoever — it never
reaches `execute_market_order`, so nothing is created, signed or posted;
and since each invocation is effect-free, any number of repeated dry-run
invocations still submits nothing. -/
theorem dry_run_no_submissions :
    (∀ env : RunEnv, cycleEffects (run_autonomous_trading env true) = []) ∧
    (∀ envs : List RunEnv,
      (envs.map (fun env =>
        cycleEffects (run_autonomous_trading env true))).flatten = []) := by
  have hone : ∀ env : RunEnv,
      cycleEffects (run_autonomous_trading env true) = [] := by
    intro env
    unfold run_autonomous_trading
    split
    · rfl
    · split
      · rfl
      · split
        · rfl
        · split
          · rfl
          · split
            · rfl
            · split
              · rfl
              · split
                · rfl
                · rename_i x1 fm hfm x r hd
                  obtain ⟨out, effs⟩ := r
                  simp only [cycleEffects]
                  exact decideLoop_dry_no_effects env fm out effs hd
  exact ⟨hone, by
    intro envs
    induction envs with
    | nil => rfl
    | cons e rest ih => simp only [List.map_cons, List.flatten_cons,
        hone e, List.nil_append, ih]⟩

/-- C8: as long as the cycle-level steps themselves do not fail (the
pre-trade step, the event fetch, and the whole-stage pipeline calls
return), a cycle tolerates arbitrary per-item failures: whatever the
per-event market-data calls and the per-candidate analysis calls do —
including raising on every single item — `run_autonomous_trading`
terminates with a normal outcome (a trade decision or a no-opportunity
result), never an error caused by a failed item. -/
theorem run_cycle_partial_failure_tolerant (env : RunEnv) (d : Bool)
    (hpre : env.preTrade = .ok ())
    (hev : ∃ evs, env.events = .ok evs)
    (hrag : ∀ l, ∃ l2, env.filterRag l = .ok l2)
    (hmap : ∀ l, ∃ l2, env.mapToMarkets l = .ok l2)
    (hfil : ∀ l, ∃ l2, env.filterMkts l = .ok l2) :
    ∃ r, run_autonomous_trading env d = .ok r := by
  obtain ⟨evs, hevs⟩ := hev
  unfold run_autonomous_trading
  split
  · rename_i x e heq
    rw [hpre] at heq
    exact Except.noConfusion heq
  · split
    · rename_i x1 u x e heq
      rw [hevs] at heq
      exact Except.noConfusion heq
    · split
      · exact ⟨_, rfl⟩
      · split
        · rename_i e heq
          obtain ⟨l2, hl2⟩ := hrag _
          rw [hl2] at heq
          exact Except.noConfusion heq
        · split
          · rename_i e heq
            obtain ⟨l2, hl2⟩ := hmap _
            rw [hl2] at heq
            exact Except.noConfusion heq
          · split
            · rename_i e heq
              obtain ⟨l2, hl2⟩ := hfil _
              rw [hl2] at heq
              exact Except.noConfusion heq
            · split
              · exact ⟨_, rfl⟩
              · exact ⟨_, rfl⟩

/-- Witness for C8: in `sampleRunEnv` every per-candidate analysis call
raises, yet the cycle returns a normal outcome. -/
theorem run_cycle_partial_failure_tolerant_witness :
    ∃ r, run_autonomous_trading sampleRunEnv true = .ok r :=
  run_cycle_partial_failure_tolerant sampleRunEnv true rfl ⟨_, rfl⟩
    (fun l => ⟨l, rfl⟩) (fun _ => ⟨[(sampleMarket, 1)], rfl⟩)
    (fun l => ⟨l, rfl⟩)

theorem marketScore_eq_specScore (now : Int) (m : SimpleMarket) :
    marketScore now m = specScore now m := by
  have ht : timeFactor now m.endTs
      = (match m.endTs with
         | none => (10 : ℚ)
         | some e =>
             if daysRemaining now e ≤ 0 then 0
             else if 1 ≤ daysRemaining now e ∧ daysRemaining now e ≤ 30
               then 25
             else if 31 ≤ daysRemaining now e ∧ daysRemaining now e ≤ 90
               then 20
             else if 91 ≤ daysRemaining now e ∧ daysRemaining now e ≤ 180
               then 15
             else 5) := by
    cases m.endTs with
    | none => rfl
    | some e =>
        simp only [timeFactor]
        by_cases hd : daysRemaining now e > 0
        · rw [if_pos hd, if_neg (by omega : ¬ daysRemaining now e ≤ 0)]
        · rw [if_neg hd, if_pos (by omega : daysRemaining now e ≤ 0)]
  unfold marketScore specScore spreadFactor questionFactor minSizeFactor
  rw [ht]

theorem insertScored_perm (p : SimpleMarket × ℚ)
    (l : List (SimpleMarket × ℚ)) : (insertScored p l).Perm (p :: l) := by
  induction l with
  | nil => exact List.Perm.refl _
  | cons a as ih =>
      unfold insertScored
      by_cases h : p.2 ≥ a.2
      · rw [if_pos h]
      · rw [if_neg h]
        exact (ih.cons a).trans (List.Perm.swap p a as)

theorem sortScoredDesc_perm (l : List (SimpleMarket × ℚ)) :
    (sortScoredDesc l).Perm l := by
  induction l with
  | nil => exact List.Perm.refl _
  | cons p ps ih =>
      exact (insertScored_perm p (sortScoredDesc ps)).trans (ih.cons p)

theorem insertScored_pairwise (p : SimpleMarket × ℚ) :
    ∀ l : List (SimpleMarket × ℚ),
      l.Pairwise (fun a b => b.2 ≤ a.2) →
      (insertScored p l).Pairwise (fun a b => b.2 ≤ a.2) := by
  intro l
  induction l with
  | nil =>
      intro _
      simp [insertScored]
  | cons a as ih =>
      intro h
      rcases List.pairwise_cons.mp h with ⟨ha, has⟩
      unfold insertScored
      by_cases hc : p.2 ≥ a.2
      · rw [if_pos hc]
        refine List.pairwise_cons.mpr ⟨?_, h⟩
        intro b hb
        rcases List.mem_cons.mp hb with rfl | hb2
        · exact hc
        · exact le_trans (ha b hb2) hc
      · rw [if_neg hc]
        refine List.pairwise_cons.mpr ⟨?_, ih has⟩
        intro b hb
        have hb2 := (insertScored_perm p as).mem_iff.mp hb
        rcases List.mem_cons.mp hb2 with rfl | hb3
        · exact le_of_lt (not_le.mp hc)
        · exact ha b hb3

theorem sortScoredDesc_pairwise (l : List (SimpleMarket × ℚ)) :
    (sortScoredDesc l).Pairwise (fun a b => b.2 ≤ a.2) := by
  induction l with
  | nil => exact List.Pairwise.nil
  | cons p ps ih => exact insertScored_pairwise p (sortScoredDesc ps) ih

theorem insertScored_filter (p : SimpleMarket × ℚ) (q : ℚ) :
    ∀ l : List (SimpleMarket × ℚ),
      (insertScored p l).filter (fun x => decide (x.2 = q))
        = if p.2 = q then p :: l.filter (fun x => decide (x.2 = q))
          else l.filter (fun x => decide (x.2 = q)) := by
  intro l
  induction l with
  | nil => by_cases hp : p.2 = q <;> simp [insertScored, hp]
  | cons a as ih =>
      unfold insertScored
      by_cases hc : p.2 ≥ a.2
      · rw [if_pos hc]
        by_cases hp : p.2 = q <;> simp [List.filter_cons, hp]
      · rw [if_neg hc]
        have hlt : p.2 < a.2 := not_le.mp hc
        by_cases hp : p.2 = q
        · have ha : a.2 ≠ q := by
            rw [← hp]
            exact ne_of_gt hlt
          simp [List.filter_cons, ha, hp, ih]
        · simp [List.filter_cons, hp, ih]

theorem sortScoredDesc_filter (q : ℚ) (l : List (SimpleMarket × ℚ)) :
    (sortScoredDesc l).filter (fun x => decide (x.2 = q))
      = l.filter (fun x => decide (x.2 = q)) := by
  induction l with
  | nil => rfl
  | cons p ps ih =>
      show (insertScored p (sortScoredDesc ps)).filter _ = _
      rw [insertScored_filter]
      by_cases hp : p.2 = q
      · rw [if_pos hp, ih]
        simp [List.filter_cons, hp]
      · rw [if_neg hp, ih]
        simp [List.filter_cons, hp]

/-- C5: the score the scoring pass assigns to every surviving (active)
market is exactly the claim's sum of factors — spread, time bucket,
funded bonus, question-length bonus and minimum-size bonus, with the
claim's case enumeration (`specScore`) — and the candidates are then
sorted descending by that score by a stable sort: the sorted list is a
permutation of the scored list, is pairwise descending in score, and for
every score value the markets holding it keep their input order. -/
theorem scoring_and_sorting_spec :
    (∀ (now : Int) (markets : List SimpleMarket),
      filter_markets_for_trading now markets
        = selectDiverse (fun _ => 0) []
            (sortScoredDesc (scoredMarkets now markets))) ∧
    (∀ (now : Int) (markets : List SimpleMarket),
      scoredMarkets now markets
        = (markets.filter (fun m => m.active)).map
            (fun m => (m, specScore now m))) ∧
    (∀ l : List (SimpleMarket × ℚ), (sortScoredDesc l).Perm l) ∧
    (∀ l : List (SimpleMarket × ℚ),
      (sortScoredDesc l).Pairwise (fun a b => b.2 ≤ a.2)) ∧
    (∀ (q : ℚ) (l : List (SimpleMarket × ℚ)),
      (sortScoredDesc l).filter (fun x => decide (x.2 = q))
        = l.filter (fun x => decide (x.2 = q))) := by
  refine ⟨fun _ _ => rfl, ?_, sortScoredDesc_perm, sortScoredDesc_pairwise,
    sortScoredDesc_filter⟩
  intro now markets
  unfold scoredMarkets
  have hfun : (fun m => (m, marketScore now m))
      = (fun m : SimpleMarket => (m, specScore now m)) :=
    funext fun m => by rw [marketScore_eq_specScore]
  rw [hfun]

theorem countCat_append_one (acc : List SimpleMarket) (m : SimpleMarket)
    (c : Category) :
    countCat (acc ++ [m]) c
      = countCat acc c
        + (if detect_category m.question = c then 1 else 0) := by
  unfold countCat
  rw [List.countP_append]
  by_cases hc : detect_category m.question = c
  · simp [List.countP_cons, hc]
  · simp [List.countP_cons, hc]

theorem selectDiverse_invariant :
    ∀ (rest : List (SimpleMarket × ℚ)) (counts : Category → Nat)
      (acc : List SimpleMarket),
      acc.length < max_featured →
      (∀ c, countCat acc c = counts c) →
      (∀ c, counts c ≤ max_per_category) →
      (selectDiverse counts acc rest).length ≤ max_featured ∧
      (∀ c, countCat (selectDiverse counts acc rest) c ≤ max_per_category) := by
  intro rest
  induction rest with
  | nil =>
      intro counts acc hlen hcc hbound
      refine ⟨le_of_lt hlen, ?_⟩
      intro c
      show countCat acc c ≤ max_per_category
      rw [hcc c]
      exact hbound c
  | cons ms rest ih =>
      intro counts acc hlen hcc hbound
      obtain ⟨m, s⟩ := ms
      simp only [selectDiverse]
      by_cases h8 : counts (detect_category m.question) < max_per_category
      · rw [if_pos h8]
        by_cases h50 : (acc ++ [m]).length ≥ max_featured
        · rw [if_pos h50]
          have hlen2 : (acc ++ [m]).length ≤ max_featured := by
            rw [List.length_append, List.length_singleton]
            omega
          refine ⟨hlen2, ?_⟩
          intro c
          rw [countCat_append_one]
          by_cases hc : detect_category m.question = c
          · rw [if_pos hc, hcc c, ← hc]
            omega
          · rw [if_neg hc, hcc c]
            have := hbound c
            omega
        · rw [if_neg h50]
          apply ih
          · rw [List.length_append, List.length_singleton]
            rw [List.length_append, List.length_singleton] at h50
            omega
          · intro c
            rw [countCat_append_one]
            by_cases hc : c = detect_category m.question
            · rw [if_pos (hc.symm), if_pos hc, hcc c, hc]

            · rw [if_neg (fun h => hc h.symm), if_neg hc, hcc c]
              omega
          · intro c
            by_cases hc : c = detect_category m.question
            · rw [if_pos hc]
              omega
            · rw [if_neg hc]
              exact hbound c
      · rw [if_neg h8]
        exact ih counts acc hlen hcc hbound

/-- C1: for every input list of markets the filtered output has at most
50 markets and at most 8 markets per detected category, and if every
input market is inactive the output is empty. -/
theorem filter_markets_bounded_diverse (now : Int)
    (markets : List SimpleMarket) :
    (filter_markets_for_trading now markets).length ≤ 50 ∧
    (∀ c, countCat (filter_markets_for_trading now markets) c ≤ 8) ∧
    ((∀ m ∈ markets, m.active = false) →
      filter_markets_for_trading now markets = []) := by
  have hinv := selectDiverse_invariant
    (sortScoredDesc (scoredMarkets now markets)) (fun _ => 0) []
    (by simp [max_featured]) (fun c => rfl)
    (fun c => by simp [max_per_category])
  refine ⟨hinv.1, hinv.2, ?_⟩
  intro hall
  have hfil : markets.filter (fun m => m.active) = [] := by
    rw [List.filter_eq_nil_iff]
    intro m hm
    simp [hall m hm]
  unfold filter_markets_for_trading
  rw [show scoredMarkets now markets = [] from by
    unfold scoredMarkets
    rw [hfil]
    rfl]
  rfl

/-- Witness for C1: a one-element, all-inactive catalog filters to the
empty list, via the theorem. -/
theorem filter_markets_bounded_diverse_witness :
    filter_markets_for_trading 0 [sampleInactiveMarket] = [] :=
  (filter_markets_bounded_diverse 0 [sampleInactiveMarket]).2.2
    (by intro m hm
        rw [List.mem_singleton.mp hm]
        rfl)

end PolyMaster
